import Mathlib

/-!
# hombedded-faders: the fader corrector, the updater and the jack emitter

A shallow embedding of `src/faders.c`.

* `double`, `dmul`, `dsqrt`, `dlt`, `double_to_int`: the IEEE 754 binary64 arithmetic the
  corrector uses (round to nearest, ties to even, one rounding per operation).
* `midival`, `fader_x`, `correct`: the correction curve of `faders_handle_update`.
* `kntxt_t`, `faders_handle_update`, `main_handle_reply`, `internal_jack_process`: the shared
  context and the two sequential steps that act on it.

An access outside a 16-slot array has no defined result in C; the embedding returns `none`
for such a run.
-/

namespace Faders

/-! ## binary64 arithmetic -/

/-- A C `double`: NaN, or the finite value `(-1)^neg * m * 2^e`.  Exponent limits are not
modelled: every non-zero value this program forms has magnitude in `[1, 2^34)`. -/
inductive double where
  | nan
  | fin (neg : Bool) (m : Nat) (e : Int)
deriving DecidableEq, Repr

/-- Halving loop behind `log2`. -/
def log2_loop : Nat → Nat → Nat
  | 0, _ => 0
  | fuel + 1, n => if n < 2 then 0 else log2_loop fuel (n / 2) + 1

/-- Position of the highest set bit of `n` (0 for `n = 0`). -/
def log2 (n : Nat) : Nat := log2_loop n n

/-- Round the exact value `m * 2^e` to a 53-bit significand, to nearest, ties to even. -/
def round53 (m : Nat) (e : Int) : Nat × Int :=
  if m < 2 ^ 53 then (m, e)
  else
    let sh := log2 m - 52
    let q := m / 2 ^ sh
    let r := m % 2 ^ sh
    let half := 2 ^ (sh - 1)
    if half < r ∨ (r = half ∧ q % 2 = 1) then (q + 1, e + sh) else (q, e + sh)

/-- The binary64 product `a * b`. -/
def dmul : double → double → double
  | .fin s1 m1 e1, .fin s2 m2 e2 =>
    .fin (xor s1 s2) (round53 (m1 * m2) (e1 + e2)).1 (round53 (m1 * m2) (e1 + e2)).2
  | _, _ => .nan

/-- Bit-by-bit integer square root: adds `2^i` to `r` while the square stays within `n`. -/
def isqrt_loop : Nat → Nat → Nat → Nat
  | 0, _, r => r
  | i + 1, n, r => isqrt_loop i n (if (r + 2 ^ i) * (r + 2 ^ i) ≤ n then r + 2 ^ i else r)

/-- Integer square root, rounded down. -/
def isqrt (n : Nat) : Nat := isqrt_loop (log2 n / 2 + 1) n 0

/-- The binary64 `sqrt`: NaN below zero, a zero is returned as it is, and otherwise the
significand is scaled by an even power of two to `n` in `[2^104, 2^106)`, whose root lies in
`[2^52, 2^53)` and is rounded to the nearest integer (a tie cannot occur). -/
def dsqrt : double → double
  | .nan => .nan
  | .fin neg m e =>
    if m = 0 then .fin neg 0 e
    else if neg then .nan
    else
      let t0 : Nat := 104 - log2 m
      let t : Nat := if (e - t0) % 2 = 0 then t0 else t0 + 1
      let n := m * 2 ^ t
      let r := isqrt n
      .fin false (if r * r + r < n then r + 1 else r) ((e - t) / 2)

/-- The integer `(-1)^neg * m * 2^(e - e0)`, for `e0 ≤ e`. -/
def scaled (neg : Bool) (m : Nat) (e e0 : Int) : Int :=
  if neg then -((m * 2 ^ (e - e0).toNat : Nat) : Int) else ((m * 2 ^ (e - e0).toNat : Nat) : Int)

/-- The comparison `a < b` on doubles; false when either side is NaN. -/
def dlt : double → double → Bool
  | .fin s1 m1 e1, .fin s2 m2 e2 =>
    decide (scaled s1 m1 e1 (min e1 e2) < scaled s2 m2 e2 (min e1 e2))
  | _, _ => false

/-- Conversion of an `int` to `double` (exact: an `int` has at most 32 bits). -/
def double_of_int (v : Int) : double := .fin (decide (v < 0)) v.natAbs 0

/-- The cast `(int) x`: truncation toward zero for a finite `x`; C leaves the result for NaN
unspecified, so it is the parameter `nan_int`. -/
def double_to_int (nan_int : Int) : double → Int
  | .nan => nan_int
  | .fin neg m e =>
    let mag : Nat := if 0 ≤ e then m * 2 ^ e.toNat else m / 2 ^ (-e).toNat
    if neg then -(mag : Int) else (mag : Int)

/-- The literal `3.1`: the double nearest to 31/10, `0x4008CCCCCCCCCCCD`. -/
def c_3_1 : double := .fin false 6980579422424269 (-51)

/-! ## the corrector (faders.c lines 85-93 and 123-129) -/

/-- Source function `midival`. -/
def midival (nan_int : Int) (x : double) : Int :=
  if dlt x (double_of_int 1) then 0
  else if dlt (double_of_int 127) x then 127
  else double_to_int nan_int x

/-- Line 127: `double x = 3.1 * sqrt(7.0 * v)`. -/
def fader_x (v : Int) : double :=
  dmul c_3_1 (dsqrt (dmul (double_of_int 7) (double_of_int v)))

/-- Lines 127-129: the level stored into the `uint8_t` slot `faders[i]` for the value `v`. -/
def correct (nan_int : Int) (v : Int) : Nat :=
  (midival nan_int (fader_x v) % 256).toNat

/-! ## the shared context (faders.c lines 17-34) -/

/-- The kinds of value a decoded `json_t` can have.  Only arrays and integers are inspected
by the program; the payload of the other kinds is left out. -/
inductive json_t where
  | JSON_OBJECT
  | JSON_ARRAY (elems : List json_t)
  | JSON_STRING
  | JSON_INTEGER (value : Int)
  | JSON_REAL
  | JSON_TRUE
  | JSON_FALSE
  | JSON_NULL

/-- The fields of `kntxt_t` shared by the updater and the emitter.  The three arrays have
16 `uint8_t` slots each. -/
structure kntxt_t where
  sync_busy : Nat
  backlog : Mathlib.Vector Nat 16
  faders : Mathlib.Vector Nat 16
  sync_states : Mathlib.Vector Nat 16
  sync_update : Nat
deriving DecidableEq

/-- The context after `memset(&kntxt, 0x00, sizeof(kntxt_t))` (line 161). -/
def kntxt_zero : kntxt_t :=
  { sync_busy := 0
    backlog := Mathlib.Vector.replicate 16 0
    faders := Mathlib.Vector.replicate 16 0
    sync_states := Mathlib.Vector.replicate 16 0
    sync_update := 0 }

/-! ## the updater (faders.c lines 96-151 and 248-263) -/

/-- Line 123: `int v = json_integer_value(data)`, the 64-bit value reduced to a 32-bit
`int`. -/
def int_of_json_int (value : Int) : Int := (value + 2 ^ 31) % 2 ^ 32 - 2 ^ 31

/-- Lines 117-131: the loop over `i < json_array_size(root)`, started at index `i` with the
elements from `i` on.  An integer element is stored into `faders[i]`; with `i` past the
last slot that store has no defined result. -/
def store_loop (nan_int : Int) :
    List json_t → Nat → Mathlib.Vector Nat 16 → Option (Mathlib.Vector Nat 16)
  | [], _, faders => some faders
  | .JSON_INTEGER value :: rest, i, faders =>
    if h : i < 16 then
      store_loop nan_int rest (i + 1)
        (faders.set ⟨i, h⟩ (correct nan_int (int_of_json_int value)))
    else none
  | _ :: rest, i, faders => store_loop nan_int rest (i + 1) faders

/-- Lines 135-137: the loop that reads `faders[i]` for every `i` from `i` up to
`i + count - 1` to print it; the values read are returned. -/
def print_loop (faders : Mathlib.Vector Nat 16) : Nat → Nat → Option (List Nat)
  | 0, _ => some []
  | count + 1, i =>
    if h : i < 16 then
      (print_loop faders count (i + 1)).map (fun printed => faders.get ⟨i, h⟩ :: printed)
    else none

/-- Lines 142-148: the number of indices `i < 2` with `faders[i] != backlog[i]`. -/
def count_updated (kntxt : kntxt_t) : Int :=
  (if kntxt.faders.get 0 ≠ kntxt.backlog.get 0 then 1 else 0) +
  (if kntxt.faders.get 1 ≠ kntxt.backlog.get 1 then 1 else 0)

/-- Source function `faders_handle_update`.  `root` is what `json_loads(source, 0, ...)`
gave: `none` for text that does not parse.  With the flags 0 of line 100 the decoder accepts
only an array or an object at top level, so text whose top level is another kind of value
(`null`, `5`, a string) does not parse either and gives `none`.  The result is the context
after the call and the value returned, or `none` when an index left the 16 slots of
`faders`. -/
def faders_handle_update (nan_int : Int) (root : Option json_t) (kntxt : kntxt_t) :
    Option (kntxt_t × Int) :=
  match root with
  | none => some (kntxt, -1)
  | some (.JSON_ARRAY elems) =>
    match store_loop nan_int elems 0 kntxt.faders with
    | none => none
    | some faders =>
      match print_loop faders elems.length 0 with
      | none => none
      | some _ =>
        some ({ kntxt with backlog := kntxt.faders, faders := faders },
          count_updated { kntxt with backlog := kntxt.faders, faders := faders })
  | some _ => some (kntxt, count_updated kntxt)

/-- Lines 248-263 of `main`: one reply handled.  With `updated > 0` the loop on `sync_busy`
is passed and `faders[0..1]` is published into `sync_states`.  In a sequential run nothing
clears `sync_busy` while that loop polls it, so with `sync_busy` set the loop never ends:
`none`.  The result carries `updated` next to the context. -/
def main_handle_reply (nan_int : Int) (root : Option json_t) (kntxt : kntxt_t) :
    Option (kntxt_t × Int) :=
  match faders_handle_update nan_int root kntxt with
  | none => none
  | some (k, updated) =>
    if 0 < updated then
      if k.sync_busy ≠ 0 then none
      else
        some ({ k with
                sync_states := (k.sync_states.set 0 (k.faders.get 0)).set 1 (k.faders.get 1)
                sync_update := 1 }, updated)
    else some (k, updated)

/-! ## the emitter (faders.c lines 39-77) -/

/-- Lines 66-70: the events of `data` are written in order, starting with loop index `i`;
`write_ok i` tells whether `jack_midi_event_write` accepted the event of index `i`.  A
refused event is reported and left out. -/
def write_events (write_ok : Nat → Bool) :
    List (List Nat) → Nat → List (List Nat) → List (List Nat)
  | [], _, buffer => buffer
  | event :: rest, i, buffer =>
    write_events write_ok rest (i + 1) (if write_ok i then buffer ++ [event] else buffer)

/-- Source function `internal_jack_process`: the context after the call and the events in
the port buffer, which is cleared on entry.  The C function returns 0 on both paths. -/
def internal_jack_process (write_ok : Nat → Bool) (kntxt : kntxt_t) :
    kntxt_t × List (List Nat) :=
  let busy : kntxt_t := { kntxt with sync_busy := 1 }
  if busy.sync_update = 0 then ({ busy with sync_busy := 0 }, [])
  else
    let data : List (List Nat) :=
      [[0xb0, 47, busy.sync_states.get 0], [0xb0, 50, busy.sync_states.get 1]]
    ({ busy with sync_update := 0, sync_busy := 0 }, write_events write_ok data 0 [])

/-! ## checks and values used to state the results -/

/-- Whether `k` is `min 127 (floor (3.1 * sqrt (7 * r)))`, stated without roots:
`3.1^2 * 7 = 67.27`, so the floor is `k` when `100 k^2 ≤ 6727 r < 100 (k+1)^2`, and the
curve is at or above 127 when `100 * 127^2 ≤ 6727 r`. -/
def level_ok (r : Nat) (k : Int) : Bool :=
  decide (0 ≤ k) && decide (k ≤ 127) &&
  (if 1612900 ≤ 6727 * r then decide (k = 127)
   else decide (100 * (k * k) ≤ 6727 * (r : Int)) &&
        decide (6727 * (r : Int) < 100 * ((k + 1) * (k + 1))))

/-- The check `level_ok` on what `midival` returns for every raw value below `n`. -/
def table_ok : Nat → Bool
  | 0 => true
  | r + 1 => level_ok r (midival 0 (fader_x (r : Int))) && table_ok r

/-- The level slot `j` holds after a call on an array: the corrected value of the entry at
`j` when that entry is an integer, the level held before otherwise (entry of another kind,
or no entry). -/
def entry_level (nan_int : Int) (entry : Option json_t) (old : Nat) : Nat :=
  match entry with
  | some (.JSON_INTEGER value) => correct nan_int (int_of_json_int value)
  | _ => old

/-- Example context: the zeroed context after the batch `[0, 128]` has been handled and
published (`first_batch`). -/
def kntxt_first : kntxt_t :=
  { kntxt_zero with
    faders := kntxt_zero.faders.set 1 92
    sync_states := kntxt_zero.sync_states.set 1 92
    sync_update := 1 }

/-- Example context: `kntxt_first` after one call of the emitter and the batch `[255, 0]`
handled and published (`second_batch`). -/
def kntxt_second : kntxt_t :=
  { sync_busy := 0
    backlog := kntxt_zero.faders.set 1 92
    faders := kntxt_zero.faders.set 0 127
    sync_states := kntxt_zero.sync_states.set 0 127
    sync_update := 1 }

/-- The contexts a sequential run can reach from the zeroed one, by replies handled in
`main` and by calls of the process callback. -/
inductive Reachable (nan_int : Int) : kntxt_t → Prop where
  | init : Reachable nan_int kntxt_zero
  | update (root : Option json_t) (k k1 : kntxt_t) (updated : Int) :
      Reachable nan_int k → main_handle_reply nan_int root k = some (k1, updated) →
      Reachable nan_int k1
  | process (write_ok : Nat → Bool) (k : kntxt_t) :
      Reachable nan_int k → Reachable nan_int (internal_jack_process write_ok k).1

/-! ## binary64 arithmetic: each operation rounds to nearest -/

theorem log2_loop_spec : ∀ fuel n : Nat, n ≤ fuel → 1 ≤ n →
    2 ^ log2_loop fuel n ≤ n ∧ n < 2 ^ (log2_loop fuel n + 1) := by
  intro fuel
  induction fuel with
  | zero => intro n h1 h2; omega
  | succ fuel ih =>
    intro n hn h1
    unfold log2_loop
    by_cases h2 : n < 2
    · rw [if_pos h2]
      have : n = 1 := by omega
      subst this
      decide
    · rw [if_neg h2]
      obtain ⟨a, b⟩ := ih (n / 2) (by omega) (by omega)
      constructor
      · rw [pow_succ]; omega
      · rw [pow_succ]; omega

/-- For `n ≥ 1`, `log2 n` is the exponent of the highest power of two within `n`. -/
theorem log2_spec (n : Nat) (h : 1 ≤ n) : 2 ^ log2 n ≤ n ∧ n < 2 ^ (log2 n + 1) :=
  log2_loop_spec n n (le_refl n) h

theorem isqrt_loop_spec : ∀ i n r : Nat, r * r ≤ n → n < (r + 2 ^ i) * (r + 2 ^ i) →
    isqrt_loop i n r * isqrt_loop i n r ≤ n ∧
      n < (isqrt_loop i n r + 1) * (isqrt_loop i n r + 1) := by
  intro i
  induction i with
  | zero =>
    intro n r h1 h2
    simpa [isqrt_loop] using And.intro h1 h2
  | succ i ih =>
    intro n r h1 h2
    unfold isqrt_loop
    by_cases hc : (r + 2 ^ i) * (r + 2 ^ i) ≤ n
    · rw [if_pos hc]
      apply ih _ _ hc
      have : r + 2 ^ i + 2 ^ i = r + 2 ^ (i + 1) := by rw [pow_succ]; omega
      rw [this]; exact h2
    · rw [if_neg hc]
      exact ih _ _ h1 (by omega)

/-- The result of `isqrt` is the floor of the square root. -/
theorem isqrt_spec (n : Nat) :
    isqrt n * isqrt n ≤ n ∧ n < (isqrt n + 1) * (isqrt n + 1) := by
  unfold isqrt
  apply isqrt_loop_spec
  · omega
  · rcases Nat.eq_zero_or_pos n with h0 | hpos
    · subst h0; simp
    · have h := (log2_spec n hpos).2
      have h2 : log2 n + 1 ≤ 2 * (log2 n / 2 + 1) := by omega
      have h3 : 2 ^ (log2 n + 1) ≤ 2 ^ (2 * (log2 n / 2 + 1)) :=
        Nat.pow_le_pow_right (by norm_num) h2
      have h4 : 2 ^ (2 * (log2 n / 2 + 1)) = 2 ^ (log2 n / 2 + 1) * 2 ^ (log2 n / 2 + 1) := by
        rw [two_mul, pow_add]
      simp only [zero_add]
      omega

theorem round_up_core (m P h q r : Nat) (hP : P = 2 * h) (hdm : q * P + r = m)
    (hup : h < r ∨ (r = h ∧ q % 2 = 1)) (hr : r < P) :
    2 * m ≤ 2 * ((q + 1) * P) + P ∧ 2 * ((q + 1) * P) ≤ 2 * m + P ∧
      ((2 * m = 2 * ((q + 1) * P) + P ∨ 2 * ((q + 1) * P) = 2 * m + P) →
        (q + 1) % 2 = 0) := by
  have h1 : (q + 1) * P = q * P + P := by ring
  rw [h1]
  refine ⟨by omega, by omega, ?_⟩
  intro htie
  rcases hup with h2 | ⟨h2, h3⟩
  · omega
  · omega

theorem round_down_core (m P h q r : Nat) (hP : P = 2 * h) (hdm : q * P + r = m)
    (hdown : ¬ (h < r ∨ (r = h ∧ q % 2 = 1))) :
    2 * m ≤ 2 * (q * P) + P ∧ 2 * (q * P) ≤ 2 * m + P ∧
      ((2 * m = 2 * (q * P) + P ∨ 2 * (q * P) = 2 * m + P) → q % 2 = 0) := by
  push_neg at hdown
  refine ⟨by omega, by omega, ?_⟩
  intro htie
  have h2 : r = h := by omega
  have := hdown.2 h2
  omega

/-- `round53` returns a significand of at most 53 bits that is nearest to the exact value
(within half a unit of the last place), the even one on a tie; a value that fits is kept. -/
theorem round53_nearest (m : Nat) (e : Int) :
    ∃ sh : Nat, (round53 m e).2 = e + sh ∧ (round53 m e).1 ≤ 2 ^ 53 ∧
      (m < 2 ^ 53 → (round53 m e).1 = m ∧ sh = 0) ∧
      2 * m ≤ 2 * ((round53 m e).1 * 2 ^ sh) + 2 ^ sh ∧
      2 * ((round53 m e).1 * 2 ^ sh) ≤ 2 * m + 2 ^ sh ∧
      (2 ^ 53 ≤ m → (2 * m = 2 * ((round53 m e).1 * 2 ^ sh) + 2 ^ sh ∨
          2 * ((round53 m e).1 * 2 ^ sh) = 2 * m + 2 ^ sh) → (round53 m e).1 % 2 = 0) := by
  by_cases hm : m < 2 ^ 53
  · have hrw : round53 m e = (m, e) := by unfold round53; rw [if_pos hm]
    rw [hrw]
    refine ⟨0, by simp, le_of_lt hm, fun _ => ⟨rfl, rfl⟩, by simp, by simp, ?_⟩
    intro h; omega
  · have hpos : 1 ≤ m := by
      have : 0 < 2 ^ 53 := by norm_num
      omega
    obtain ⟨hl1, hl2⟩ := log2_spec m hpos
    have hL : 53 ≤ log2 m := by
      by_contra hc
      have : log2 m + 1 ≤ 53 := by omega
      have := Nat.pow_le_pow_right (show 0 < 2 by norm_num) this
      omega
    obtain ⟨sh, hsh⟩ : ∃ sh, sh = log2 m - 52 := ⟨_, rfl⟩
    obtain ⟨s1, hs1⟩ : ∃ s1, sh = s1 + 1 := ⟨sh - 1, by omega⟩
    have hP : 2 ^ sh = 2 * 2 ^ s1 := by rw [hs1, pow_succ]; ring
    have hdm : m / 2 ^ sh * 2 ^ sh + m % 2 ^ sh = m := Nat.div_add_mod' m (2 ^ sh)
    have hPpos : 0 < 2 ^ sh := by positivity
    have hr : m % 2 ^ sh < 2 ^ sh := Nat.mod_lt _ hPpos
    have hq : m / 2 ^ sh < 2 ^ 53 := by
      rw [Nat.div_lt_iff_lt_mul hPpos]
      have : log2 m + 1 = 53 + sh := by omega
      rw [this, pow_add] at hl2
      exact hl2
    have hs2 : sh - 1 = s1 := by omega
    refine ⟨sh, ?_⟩
    by_cases hup : 2 ^ s1 < m % 2 ^ sh ∨ (m % 2 ^ sh = 2 ^ s1 ∧ m / 2 ^ sh % 2 = 1)
    · have hrw : round53 m e = (m / 2 ^ sh + 1, e + sh) := by
        unfold round53
        rw [if_neg hm]
        simp only [← hsh, hs2]
        rw [if_pos hup]
      rw [hrw]
      obtain ⟨c1, c2, c3⟩ := round_up_core m _ _ _ _ hP hdm hup hr
      exact ⟨rfl, hq, fun h => absurd h hm, c1, c2, fun _ => c3⟩
    · have hrw : round53 m e = (m / 2 ^ sh, e + sh) := by
        unfold round53
        rw [if_neg hm]
        simp only [← hsh, hs2]
        rw [if_neg hup]
      rw [hrw]
      obtain ⟨c1, c2, c3⟩ := round_down_core m _ _ _ _ hP hdm hup
      exact ⟨rfl, le_of_lt hq, fun h => absurd h hm, c1, c2, fun _ => c3⟩

/-- `dsqrt` of a positive value `m * 2^e` returns `r * 2^e1` where, for the even scaling
`n = m * 2^t` with `e = 2 * e1 + t`, `r` is the integer nearest to the square root of `n`;
with `m` below `2^53` that `r` has 53 bits. -/
theorem dsqrt_nearest (m : Nat) (e : Int) (hm : 0 < m) :
    ∃ (r t : Nat) (e1 : Int), dsqrt (.fin false m e) = .fin false r e1 ∧
      e = 2 * e1 + t ∧ r * r < m * 2 ^ t + r ∧ m * 2 ^ t ≤ r * r + r ∧
      (m < 2 ^ 53 → 2 ^ 52 ≤ r ∧ r ≤ 2 ^ 53) := by
  obtain ⟨t, ht⟩ : ∃ t : Nat, t =
      if (e - ((104 - log2 m : Nat) : Int)) % 2 = 0 then 104 - log2 m
      else 104 - log2 m + 1 := ⟨_, rfl⟩
  obtain ⟨a, b⟩ := isqrt_spec (m * 2 ^ t)
  have hn : 0 < m * 2 ^ t := by positivity
  have hr0 : 0 < isqrt (m * 2 ^ t) := by
    by_contra hc
    have h0 : isqrt (m * 2 ^ t) = 0 := by omega
    rw [h0] at b
    omega
  have heven : e = 2 * ((e - (t : Int)) / 2) + t := by
    by_cases hc : (e - ((104 - log2 m : Nat) : Int)) % 2 = 0
    · rw [if_pos hc] at ht
      rw [ht]; omega
    · rw [if_neg hc] at ht
      rw [ht]; push_cast; omega
  have hbits : m < 2 ^ 53 → 2 ^ 104 ≤ m * 2 ^ t ∧ m * 2 ^ t < 2 ^ 106 := by
    intro hlt
    obtain ⟨l1, l2⟩ := log2_spec m hm
    have hL : log2 m ≤ 52 := by
      by_contra hc
      have := Nat.pow_le_pow_right (show 0 < 2 by norm_num) (show 53 ≤ log2 m by omega)
      omega
    have ht2 : t = 104 - log2 m ∨ t = 104 - log2 m + 1 := by
      rw [ht]; split_ifs
      · exact Or.inl rfl
      · exact Or.inr rfl
    have e1 : 2 ^ log2 m * 2 ^ (104 - log2 m) = 2 ^ 104 := by
      rw [← pow_add]; congr 1; omega
    have e2 : 2 ^ (log2 m + 1) * 2 ^ (104 - log2 m) = 2 ^ 105 := by
      rw [← pow_add]; congr 1; omega
    have hp : 0 < 2 ^ (104 - log2 m) := by positivity
    have lo : 2 ^ 104 ≤ m * 2 ^ (104 - log2 m) := by
      rw [← e1]; exact Nat.mul_le_mul_right _ l1
    have hi : m * 2 ^ (104 - log2 m) < 2 ^ 105 := by
      rw [← e2]; exact Nat.mul_lt_mul_of_pos_right l2 hp
    rcases ht2 with h | h
    · rw [h]; constructor
      · exact lo
      · have : (2 : Nat) ^ 105 < 2 ^ 106 := by norm_num
        omega
    · have hstep : m * 2 ^ (104 - log2 m + 1) = m * 2 ^ (104 - log2 m) * 2 := by
        rw [pow_succ, mul_assoc]
      rw [h, hstep]; constructor
      · have : (2 : Nat) ^ 104 ≤ 2 ^ 104 * 2 := by norm_num
        omega
      · have : (2 : Nat) ^ 106 = 2 ^ 105 * 2 := by norm_num
        omega
  have hrange : m < 2 ^ 53 → 2 ^ 52 ≤ isqrt (m * 2 ^ t) ∧ isqrt (m * 2 ^ t) < 2 ^ 53 := by
    intro hlt
    obtain ⟨lo, hi⟩ := hbits hlt
    constructor
    · by_contra hc
      have h1 : isqrt (m * 2 ^ t) + 1 ≤ 2 ^ 52 := by omega
      have h2 := Nat.mul_le_mul h1 h1
      have h3 : (2 : Nat) ^ 52 * 2 ^ 52 = 2 ^ 104 := by norm_num
      omega
    · by_contra hc
      have h1 : 2 ^ 53 ≤ isqrt (m * 2 ^ t) := by omega
      have h2 := Nat.mul_le_mul h1 h1
      have h3 : (2 : Nat) ^ 53 * 2 ^ 53 = 2 ^ 106 := by norm_num
      omega
  refine ⟨if isqrt (m * 2 ^ t) * isqrt (m * 2 ^ t) + isqrt (m * 2 ^ t) < m * 2 ^ t
      then isqrt (m * 2 ^ t) + 1 else isqrt (m * 2 ^ t), t, (e - (t : Int)) / 2, ?_, heven, ?_⟩
  · have hm0 : ¬ m = 0 := Nat.pos_iff_ne_zero.mp hm
    simp only [dsqrt, hm0, Bool.false_eq_true, if_false, ← ht]
  · by_cases hc : isqrt (m * 2 ^ t) * isqrt (m * 2 ^ t) + isqrt (m * 2 ^ t) < m * 2 ^ t
    · rw [if_pos hc]
      have hsq : (isqrt (m * 2 ^ t) + 1) * (isqrt (m * 2 ^ t) + 1) =
          isqrt (m * 2 ^ t) * isqrt (m * 2 ^ t) + 2 * isqrt (m * 2 ^ t) + 1 := by ring
      refine ⟨by omega, by omega, fun hlt => ?_⟩
      have := hrange hlt
      omega
    · rw [if_neg hc]
      refine ⟨by omega, by omega, fun hlt => ?_⟩
      have := hrange hlt
      omega

/-- The literal `3.1` is the binary64 value nearest to 31/10: its significand is within
half a unit of `3.1 * 2^51` and has 53 bits. -/
theorem c_3_1_nearest :
    c_3_1 = .fin false 6980579422424269 (-51) ∧
      2 ^ 52 ≤ 6980579422424269 ∧ 6980579422424269 < 2 ^ 53 ∧
      2 * (10 * 6980579422424269 - 31 * 2 ^ 51) ≤ 10 ∧
      31 * 2 ^ 51 ≤ 10 * 6980579422424269 := by
  refine ⟨rfl, ?_, ?_, ?_, ?_⟩ <;> norm_num

/-! ## the corrector -/

theorem dsqrt_pos_fin (m : Nat) (e : Int) :
    ∃ m1 e1, dsqrt (.fin false m e) = .fin false m1 e1 := by
  unfold dsqrt
  by_cases hm : m = 0
  · exact ⟨0, e, by simp [hm]⟩
  · simp only [hm, if_false, Bool.false_eq_true]
    exact ⟨_, _, rfl⟩

theorem fader_x_fin (raw : Nat) : ∃ s m e, fader_x (raw : Int) = .fin s m e := by
  have h1 : double_of_int (raw : Int) = .fin false raw 0 := by
    simp [double_of_int]
  obtain ⟨m1, e1, h2⟩ :=
    dsqrt_pos_fin (round53 (7 * raw) (0 + 0)).1 (round53 (7 * raw) (0 + 0)).2
  have h3 : dmul (double_of_int 7) (double_of_int (raw : Int))
      = .fin false (round53 (7 * raw) (0 + 0)).1 (round53 (7 * raw) (0 + 0)).2 := by
    rw [h1]; rfl
  unfold fader_x
  rw [h3, h2]
  exact ⟨_, _, _, rfl⟩

/-- For a raw value that is not negative the cast never meets NaN, so the level does not
depend on `nan_int`. -/
theorem midival_nat (nan_int : Int) (raw : Nat) :
    midival nan_int (fader_x (raw : Int)) = midival 0 (fader_x (raw : Int)) := by
  obtain ⟨s, m, e, h⟩ := fader_x_fin raw
  rw [h]; rfl

set_option maxRecDepth 100000 in
theorem table_ok_256 : table_ok 256 = true := by decide!

theorem table_ok_row : ∀ n r : Nat, table_ok n = true → r < n →
    level_ok r (midival 0 (fader_x (r : Int))) = true := by
  intro n
  induction n with
  | zero => intro r _ h; omega
  | succ n ih =>
    intro r h hr
    simp only [table_ok, Bool.and_eq_true] at h
    rcases Nat.lt_succ_iff_lt_or_eq.mp hr with h1 | h1
    · exact ih r h.2 h1
    · subst h1; exact h.1

/-- What the table check says about the level of one raw value in `[0, 255]`. -/
theorem midival_row (nan_int : Int) (raw : Nat) (h : raw ≤ 255) :
    0 ≤ midival nan_int (fader_x raw) ∧ midival nan_int (fader_x raw) ≤ 127 ∧
    (1612900 ≤ 6727 * raw → midival nan_int (fader_x raw) = 127) ∧
    (6727 * raw < 1612900 →
      100 * (midival nan_int (fader_x raw) * midival nan_int (fader_x raw))
          ≤ 6727 * (raw : Int) ∧
      6727 * (raw : Int) <
        100 * ((midival nan_int (fader_x raw) + 1) * (midival nan_int (fader_x raw) + 1))) := by
  have hrow := table_ok_row 256 raw table_ok_256 (by omega)
  rw [midival_nat nan_int raw]
  simp only [level_ok, Bool.and_eq_true, decide_eq_true_eq] at hrow
  obtain ⟨⟨h0, h127⟩, hrest⟩ := hrow
  refine ⟨h0, h127, ?_, ?_⟩
  · intro hge
    rw [if_pos hge] at hrest
    simpa using hrest
  · intro hlt
    rw [if_neg (by omega)] at hrest
    simpa using hrest

theorem correct_eq_midival (nan_int : Int) (raw : Nat) (h : raw ≤ 255) :
    (correct nan_int raw : Int) = midival nan_int (fader_x raw) := by
  obtain ⟨h0, h127, -, -⟩ := midival_row nan_int raw h
  unfold correct
  rw [Int.toNat_of_nonneg (Int.emod_nonneg _ (by norm_num))]
  exact Int.emod_eq_of_lt h0 (by omega)

theorem curve_sq (r : Nat) :
    ((3.1 : ℝ) * Real.sqrt (7 * (r : ℝ))) ^ 2 = 6727 / 100 * (r : ℝ) := by
  have hr : (0 : ℝ) ≤ 7 * (r : ℝ) := by positivity
  rw [mul_pow, Real.sq_sqrt hr]
  norm_num
  ring

theorem curve_nonneg (r : Nat) : 0 ≤ (3.1 : ℝ) * Real.sqrt (7 * (r : ℝ)) := by
  have := Real.sqrt_nonneg (7 * (r : ℝ))
  positivity

theorem le_curve (r : Nat) (k : Int) (hk : 0 ≤ k)
    (h1 : 100 * (k * k) ≤ 6727 * (r : Int)) :
    (k : ℝ) ≤ (3.1 : ℝ) * Real.sqrt (7 * (r : ℝ)) := by
  have hk1 : (0 : ℝ) ≤ (k : ℝ) := by exact_mod_cast hk
  have h2 : (100 : ℝ) * ((k : ℝ) * k) ≤ 6727 * (r : ℝ) := by exact_mod_cast h1
  have hy := curve_nonneg r
  have hsq := curve_sq r
  by_contra hlt
  push_neg at hlt
  nlinarith

theorem curve_lt (r : Nat) (k : Int) (hk : 0 ≤ k)
    (h2 : 6727 * (r : Int) < 100 * ((k + 1) * (k + 1))) :
    (3.1 : ℝ) * Real.sqrt (7 * (r : ℝ)) < (k : ℝ) + 1 := by
  have hk1 : (0 : ℝ) ≤ (k : ℝ) := by exact_mod_cast hk
  have h3 : (6727 : ℝ) * (r : ℝ) < 100 * (((k : ℝ) + 1) * (k + 1)) := by exact_mod_cast h2
  have hy := curve_nonneg r
  have hsq := curve_sq r
  by_contra hge
  push_neg at hge
  nlinarith

theorem floor_curve_eq (r : Nat) (k : Int) (hk : 0 ≤ k)
    (h1 : 100 * (k * k) ≤ 6727 * (r : Int))
    (h2 : 6727 * (r : Int) < 100 * ((k + 1) * (k + 1))) :
    ⌊(3.1 : ℝ) * Real.sqrt (7 * (r : ℝ))⌋ = k := by
  rw [Int.floor_eq_iff]
  exact ⟨le_curve r k hk h1, curve_lt r k hk h2⟩

theorem floor_curve_ge (r : Nat) (h : 1612900 ≤ 6727 * r) :
    127 ≤ ⌊(3.1 : ℝ) * Real.sqrt (7 * (r : ℝ))⌋ := by
  rw [Int.le_floor]
  have := le_curve r 127 (by norm_num) (by push_cast; omega)
  simpa using this

/-- The level as the clamp of the exact floor. -/
theorem midival_eq_floor (nan_int : Int) (raw : Nat) (h : raw ≤ 255) :
    midival nan_int (fader_x raw) = min 127 ⌊(3.1 : ℝ) * Real.sqrt (7 * (raw : ℝ))⌋ := by
  obtain ⟨h0, h127, hhi, hlo⟩ := midival_row nan_int raw h
  by_cases hc : 1612900 ≤ 6727 * raw
  · rw [hhi hc, min_eq_left (floor_curve_ge raw hc)]
  · obtain ⟨h1, h2⟩ := hlo (by omega)
    rw [floor_curve_eq raw _ h0 h1 h2, min_eq_right h127]

/-- The level of a raw value in `[0, 255]` below the clamp, from its two bounds. -/
theorem correct_value (nan_int : Int) (r k : Nat) (hr : r ≤ 255) (hlt : 6727 * r < 1612900)
    (h1 : 100 * (k * k) ≤ 6727 * r) (h2 : 6727 * r < 100 * ((k + 1) * (k + 1))) :
    correct nan_int r = k := by
  have e1 := correct_eq_midival nan_int r hr
  obtain ⟨g0, g127, -, glo⟩ := midival_row nan_int r hr
  obtain ⟨g1, g2⟩ := glo hlt
  have : midival nan_int (fader_x r) = k := by
    have a := floor_curve_eq r _ g0 g1 g2
    have b := floor_curve_eq r (k : Int) (by omega) (by exact_mod_cast h1)
      (by exact_mod_cast h2)
    rw [← a, b]
  rw [this] at e1
  exact_mod_cast e1

theorem correct_0 (nan_int : Int) : correct nan_int 0 = 0 :=
  correct_value nan_int 0 0 (by norm_num) (by norm_num) (by norm_num) (by norm_num)

theorem correct_128 (nan_int : Int) : correct nan_int 128 = 92 :=
  correct_value nan_int 128 92 (by norm_num) (by norm_num) (by norm_num) (by norm_num)

theorem correct_255 (nan_int : Int) : correct nan_int 255 = 127 := by
  have e1 := correct_eq_midival nan_int 255 (by norm_num)
  rw [(midival_row nan_int 255 (by norm_num)).2.2.1 (by norm_num)] at e1
  exact_mod_cast e1

/-- C1: for every integer `raw` in `[0, 255]` the level `midival(3.1 * sqrt(7.0 * raw))`
computed in binary64 equals `clamp(truncate(3.1 * sqrt(7 * raw)), 0, 127)` taken in exact real
arithmetic, which is `min(127, floor(3.1 * sqrt(7 * raw)))` (the value is not negative, so
truncation is the floor), and so does the byte stored into `faders[i]`; the levels of 0, 128
and 255 are 0, 92 and 127. -/
theorem corrector_matches_exact_arithmetic (nan_int : Int) (raw : Nat) (h : raw ≤ 255) :
    midival nan_int (fader_x raw)
        = max 0 (min 127 ⌊(3.1 : ℝ) * Real.sqrt (7 * (raw : ℝ))⌋) ∧
      midival nan_int (fader_x raw) = min 127 ⌊(3.1 : ℝ) * Real.sqrt (7 * (raw : ℝ))⌋ ∧
      correct nan_int raw = min 127 ⌊(3.1 : ℝ) * Real.sqrt (7 * (raw : ℝ))⌋₊ ∧
      correct nan_int 0 = 0 ∧ correct nan_int 128 = 92 ∧ correct nan_int 255 = 127 := by
  have hfl := midival_eq_floor nan_int raw h
  have h0 := (midival_row nan_int raw h).1
  have key : ∀ r : Nat, r ≤ 255 →
      correct nan_int r = min 127 ⌊(3.1 : ℝ) * Real.sqrt (7 * (r : ℝ))⌋₊ := by
    intro r hr
    have e1 := correct_eq_midival nan_int r hr
    rw [midival_eq_floor nan_int r hr] at e1
    have e2 : ((⌊(3.1 : ℝ) * Real.sqrt (7 * (r : ℝ))⌋₊ : Nat) : Int)
        = ⌊(3.1 : ℝ) * Real.sqrt (7 * (r : ℝ))⌋ :=
      Int.natCast_floor_eq_floor (curve_nonneg r)
    have e3 : ((min 127 ⌊(3.1 : ℝ) * Real.sqrt (7 * (r : ℝ))⌋₊ : Nat) : Int)
        = min 127 ⌊(3.1 : ℝ) * Real.sqrt (7 * (r : ℝ))⌋ := by
      rw [← e2]; push_cast; rfl
    exact_mod_cast e1.trans e3.symm
  refine ⟨?_, hfl, key raw h, correct_0 nan_int, correct_128 nan_int, correct_255 nan_int⟩
  rw [← hfl, max_eq_right h0]

theorem corrector_matches_exact_arithmetic_witness :
    midival 0 (fader_x ((128 : Nat) : Int))
        = max 0 (min 127 ⌊(3.1 : ℝ) * Real.sqrt (7 * ((128 : Nat) : ℝ))⌋) ∧
      midival 0 (fader_x ((128 : Nat) : Int))
        = min 127 ⌊(3.1 : ℝ) * Real.sqrt (7 * ((128 : Nat) : ℝ))⌋ ∧
      correct 0 ((128 : Nat) : Int)
        = min 127 ⌊(3.1 : ℝ) * Real.sqrt (7 * ((128 : Nat) : ℝ))⌋₊ ∧
      correct 0 0 = 0 ∧ correct 0 128 = 92 ∧ correct 0 255 = 127 :=
  corrector_matches_exact_arithmetic 0 128 (by norm_num)

/-- C7: the corrector is monotonically non-decreasing from `[0, 255]` into `[0, 127]`: for
integers `raw1 ≤ raw2` in `[0, 255]`,
`0 ≤ correct(raw1) ≤ correct(raw2) ≤ 127`, for the value `midival` returns and for the byte
stored. -/
theorem corrector_monotone (nan_int : Int) (raw1 raw2 : Nat) (h12 : raw1 ≤ raw2)
    (h2 : raw2 ≤ 255) :
    (0 ≤ midival nan_int (fader_x raw1) ∧
      midival nan_int (fader_x raw1) ≤ midival nan_int (fader_x raw2) ∧
      midival nan_int (fader_x raw2) ≤ 127) ∧
    (0 ≤ correct nan_int raw1 ∧ correct nan_int raw1 ≤ correct nan_int raw2 ∧
      correct nan_int raw2 ≤ 127) := by
  have h1 : raw1 ≤ 255 := le_trans h12 h2
  obtain ⟨a0, a127, -, alo⟩ := midival_row nan_int raw1 h1
  obtain ⟨b0, b127, bhi, blo⟩ := midival_row nan_int raw2 h2
  have mono : midival nan_int (fader_x raw1) ≤ midival nan_int (fader_x raw2) := by
    by_cases hc : 1612900 ≤ 6727 * raw2
    · rw [bhi hc]; exact a127
    · obtain ⟨b1, b2⟩ := blo (by omega)
      obtain ⟨a1, a2⟩ := alo (by omega)
      have hle : 6727 * (raw1 : Int) ≤ 6727 * (raw2 : Int) := by
        have : (raw1 : Int) ≤ raw2 := by exact_mod_cast h12
        omega
      by_contra hlt
      push_neg at hlt
      nlinarith
  have c1 := correct_eq_midival nan_int raw1 h1
  have c2 := correct_eq_midival nan_int raw2 h2
  refine ⟨⟨a0, mono, b127⟩, Nat.zero_le _, ?_, ?_⟩
  · have : (correct nan_int raw1 : Int) ≤ correct nan_int raw2 := by rw [c1, c2]; exact mono
    exact_mod_cast this
  · have : (correct nan_int raw2 : Int) ≤ 127 := by rw [c2]; exact b127
    exact_mod_cast this

theorem corrector_monotone_witness :
    (0 ≤ midival 0 (fader_x ((128 : Nat) : Int)) ∧
      midival 0 (fader_x ((128 : Nat) : Int)) ≤ midival 0 (fader_x ((255 : Nat) : Int)) ∧
      midival 0 (fader_x ((255 : Nat) : Int)) ≤ 127) ∧
    (0 ≤ correct 0 ((128 : Nat) : Int) ∧
      correct 0 ((128 : Nat) : Int) ≤ correct 0 ((255 : Nat) : Int) ∧
      correct 0 ((255 : Nat) : Int) ≤ 127) :=
  corrector_monotone 0 128 255 (by norm_num) (by norm_num)

/-! ## the emitter -/

theorem process_idle (write_ok : Nat → Bool) (k : kntxt_t) (h : k.sync_update = 0) :
    internal_jack_process write_ok k = ({ k with sync_busy := 0 }, []) := by
  simp [internal_jack_process, h]

theorem process_pending (write_ok : Nat → Bool) (k : kntxt_t) (h : k.sync_update ≠ 0) :
    internal_jack_process write_ok k =
      ({ k with sync_update := 0, sync_busy := 0 },
        write_events write_ok
          [[0xb0, 47, k.sync_states.get 0], [0xb0, 50, k.sync_states.get 1]] 0 []) := by
  simp [internal_jack_process, h]

theorem write_events_all_ok (write_ok : Nat → Bool) (a b : List Nat)
    (hw : ∀ i, i < 2 → write_ok i = true) :
    write_events write_ok [a, b] 0 [] = [a, b] := by
  simp [write_events, hw 0 (by norm_num), hw 1 (by norm_num)]

/-- C2: with `sync_update` set, one call of `internal_jack_process` in which every buffer
write succeeds writes exactly the two events `[0xB0, 47, sync_states[0]]` and
`[0xB0, 50, sync_states[1]]`, in this order and with `sync_states` as on entry; it leaves
`sync_states` as it was and ends with `sync_update` and `sync_busy` cleared. -/
theorem process_emits_staged (write_ok : Nat → Bool) (k : kntxt_t)
    (hpending : k.sync_update ≠ 0) (hw : ∀ i, i < 2 → write_ok i = true) :
    (internal_jack_process write_ok k).2 =
        [[0xB0, 47, k.sync_states.get 0], [0xB0, 50, k.sync_states.get 1]] ∧
      (internal_jack_process write_ok k).1.sync_states = k.sync_states ∧
      (internal_jack_process write_ok k).1.sync_update = 0 ∧
      (internal_jack_process write_ok k).1.sync_busy = 0 := by
  rw [process_pending write_ok k hpending, write_events_all_ok write_ok _ _ hw]
  exact ⟨rfl, rfl, rfl, rfl⟩

theorem process_emits_staged_witness :
    (internal_jack_process (fun _ => true) { kntxt_zero with sync_update := 1 }).2 =
        [[0xB0, 47, ({ kntxt_zero with sync_update := 1 } : kntxt_t).sync_states.get 0],
         [0xB0, 50, ({ kntxt_zero with sync_update := 1 } : kntxt_t).sync_states.get 1]] ∧
      (internal_jack_process (fun _ => true) { kntxt_zero with sync_update := 1 }).1.sync_states
        = ({ kntxt_zero with sync_update := 1 } : kntxt_t).sync_states ∧
      (internal_jack_process (fun _ => true) { kntxt_zero with sync_update := 1 }).1.sync_update
        = 0 ∧
      (internal_jack_process (fun _ => true) { kntxt_zero with sync_update := 1 }).1.sync_busy
        = 0 :=
  process_emits_staged (fun _ => true) { kntxt_zero with sync_update := 1 } (by decide)
    (fun _ _ => rfl)

/-- C3: with `sync_update` clear, one call of `internal_jack_process` writes no event,
leaves `sync_update` clear, leaves `sync_states`, `faders` and `backlog` as they were, and
ends with `sync_busy` cleared, whatever the buffer would do with a write. -/
theorem process_idle_noop (write_ok : Nat → Bool) (k : kntxt_t) (hidle : k.sync_update = 0) :
    (internal_jack_process write_ok k).2 = [] ∧
      (internal_jack_process write_ok k).1.sync_update = 0 ∧
      (internal_jack_process write_ok k).1.sync_states = k.sync_states ∧
      (internal_jack_process write_ok k).1.faders = k.faders ∧
      (internal_jack_process write_ok k).1.backlog = k.backlog ∧
      (internal_jack_process write_ok k).1.sync_busy = 0 := by
  rw [process_idle write_ok k hidle]
  exact ⟨rfl, hidle, rfl, rfl, rfl, rfl⟩

theorem process_idle_noop_witness :
    (internal_jack_process (fun _ => true) kntxt_zero).2 = [] ∧
      (internal_jack_process (fun _ => true) kntxt_zero).1.sync_update = 0 ∧
      (internal_jack_process (fun _ => true) kntxt_zero).1.sync_states
        = kntxt_zero.sync_states ∧
      (internal_jack_process (fun _ => true) kntxt_zero).1.faders = kntxt_zero.faders ∧
      (internal_jack_process (fun _ => true) kntxt_zero).1.backlog = kntxt_zero.backlog ∧
      (internal_jack_process (fun _ => true) kntxt_zero).1.sync_busy = 0 :=
  process_idle_noop (fun _ => true) kntxt_zero rfl

/-! ## the updater -/

theorem store_loop_spec (nan_int : Int) :
    ∀ (elems : List json_t) (i : Nat) (f : Mathlib.Vector Nat 16), i + elems.length ≤ 16 →
      ∃ g, store_loop nan_int elems i f = some g ∧
        ∀ j : Fin 16, g.get j =
          if i ≤ j.val then entry_level nan_int (elems[j.val - i]?) (f.get j) else f.get j := by
  intro elems
  induction elems with
  | nil =>
    intro i f _
    refine ⟨f, rfl, ?_⟩
    intro j
    simp [entry_level]
  | cons d rest ih =>
    intro i f hlen
    simp only [List.length_cons] at hlen
    have hi : i < 16 := by omega
    have step : ∀ f1 : Mathlib.Vector Nat 16,
        (∀ j : Fin 16, f1.get j =
          if j.val = i then entry_level nan_int (some d) (f.get j) else f.get j) →
        ∃ g, store_loop nan_int rest (i + 1) f1 = some g ∧
          ∀ j : Fin 16, g.get j =
            if i ≤ j.val then entry_level nan_int ((d :: rest)[j.val - i]?) (f.get j)
            else f.get j := by
      intro f1 hf1
      obtain ⟨g, hg, hspec⟩ := ih (i + 1) f1 (by omega)
      refine ⟨g, hg, ?_⟩
      intro j
      rw [hspec j, hf1 j]
      by_cases h1 : i + 1 ≤ j.val
      · have h2 : i ≤ j.val := by omega
        have h3 : j.val ≠ i := by omega
        have h4 : j.val - i = (j.val - (i + 1)) + 1 := by omega
        rw [if_pos h1, if_pos h2, if_neg h3, h4, List.getElem?_cons_succ]
      · rw [if_neg h1]
        by_cases h2 : j.val = i
        · rw [if_pos h2, if_pos (by omega)]
          have : j.val - i = 0 := by omega
          rw [this, List.getElem?_cons_zero]
        · rw [if_neg h2, if_neg (by omega)]
    cases d with
    | JSON_INTEGER value =>
      simp only [store_loop, dif_pos hi]
      apply step
      intro j
      by_cases h2 : j.val = i
      · have : j = ⟨i, hi⟩ := Fin.ext h2
        subst this
        simp [entry_level, Mathlib.Vector.get_set_same]
      · have : (⟨i, hi⟩ : Fin 16) ≠ j := fun h => h2 (by rw [← h])
        rw [if_neg h2, Mathlib.Vector.get_set_of_ne this]
    | _ =>
      simp only [store_loop]
      apply step
      intro j
      simp [entry_level]

theorem print_loop_defined (f : Mathlib.Vector Nat 16) :
    ∀ count i : Nat, i + count ≤ 16 → ∃ printed, print_loop f count i = some printed := by
  intro count
  induction count with
  | zero => intro i _; exact ⟨[], rfl⟩
  | succ count ih =>
    intro i h
    have hi : i < 16 := by omega
    obtain ⟨p, hp⟩ := ih (i + 1) (by omega)
    exact ⟨f.get ⟨i, hi⟩ :: p, by simp [print_loop, hi, hp]⟩

/-- On a batch of at most 16 entries the call has a result: `backlog` takes the old levels,
slot `j` of `faders` takes the corrected value of entry `j` when that entry is an integer
and keeps its level otherwise, and the count of differing tracked slots is returned. -/
theorem faders_handle_update_array (nan_int : Int) (elems : List json_t) (k : kntxt_t)
    (hlen : elems.length ≤ 16) :
    ∃ g, faders_handle_update nan_int (some (.JSON_ARRAY elems)) k =
        some ({ k with backlog := k.faders, faders := g },
          count_updated { k with backlog := k.faders, faders := g }) ∧
      ∀ j : Fin 16, g.get j = entry_level nan_int (elems[j.val]?) (k.faders.get j) := by
  obtain ⟨g, hg, hspec⟩ := store_loop_spec nan_int elems 0 k.faders (by omega)
  obtain ⟨p, hp⟩ := print_loop_defined g elems.length 0 (by omega)
  refine ⟨g, ?_, ?_⟩
  · simp [faders_handle_update, hg, hp]
  · intro j
    simpa using hspec j

/-- What a call with a result leaves alone, and where its return value comes from. -/
theorem faders_handle_update_frame (nan_int : Int) (root : Option json_t) (k k1 : kntxt_t)
    (updated : Int) (h : faders_handle_update nan_int root k = some (k1, updated)) :
    k1.sync_busy = k.sync_busy ∧ k1.sync_states = k.sync_states ∧
      k1.sync_update = k.sync_update ∧ (updated = -1 ∨ updated = count_updated k1) := by
  unfold faders_handle_update at h
  split at h
  · simp only [Option.some.injEq, Prod.mk.injEq] at h
    obtain ⟨rfl, rfl⟩ := h
    exact ⟨rfl, rfl, rfl, Or.inl rfl⟩
  · split at h
    · simp at h
    · split at h
      · simp at h
      · simp only [Option.some.injEq, Prod.mk.injEq] at h
        obtain ⟨rfl, rfl⟩ := h
        exact ⟨rfl, rfl, rfl, Or.inr rfl⟩
  · simp only [Option.some.injEq, Prod.mk.injEq] at h
    obtain ⟨rfl, rfl⟩ := h
    exact ⟨rfl, rfl, rfl, Or.inr rfl⟩

/-- The shape of the result of `main_handle_reply`. -/
theorem main_handle_reply_cases (nan_int : Int) (root : Option json_t) (k k1 : kntxt_t)
    (updated : Int) (h : main_handle_reply nan_int root k = some (k1, updated)) :
    ∃ k0, faders_handle_update nan_int root k = some (k0, updated) ∧
      ((0 < updated ∧ k0.sync_busy = 0 ∧
          k1 = { k0 with
                 sync_states := (k0.sync_states.set 0 (k0.faders.get 0)).set 1 (k0.faders.get 1)
                 sync_update := 1 }) ∨
        (¬ 0 < updated ∧ k1 = k0)) := by
  unfold main_handle_reply at h
  cases hf : faders_handle_update nan_int root k with
  | none => simp [hf] at h
  | some r =>
    obtain ⟨k0, u⟩ := r
    simp only [hf] at h
    by_cases hu : 0 < u
    · by_cases hb : k0.sync_busy = 0
      · rw [if_pos hu, if_neg (not_not.mpr hb)] at h
        simp only [Option.some.injEq, Prod.mk.injEq] at h
        obtain ⟨rfl, rfl⟩ := h
        exact ⟨k0, rfl, Or.inl ⟨hu, hb, rfl⟩⟩
      · rw [if_pos hu, if_pos hb] at h
        exact absurd h (by simp)
    · rw [if_neg hu] at h
      simp only [Option.some.injEq, Prod.mk.injEq] at h
      obtain ⟨rfl, rfl⟩ := h
      exact ⟨k0, rfl, Or.inr ⟨hu, rfl⟩⟩

theorem vector16_set_get_tracked (v : Mathlib.Vector Nat 16) (a b : Nat) :
    ((v.set 0 a).set 1 b).get 0 = a ∧ ((v.set 0 a).set 1 b).get 1 = b := by
  constructor
  · rw [Mathlib.Vector.get_set_of_ne (by decide), Mathlib.Vector.get_set_same]
  · rw [Mathlib.Vector.get_set_same]

/-- On batches of at most 16 entries only the entries at indices 0 and 1 decide the value
returned and the tracked levels: two such batches that agree there give the same count and
the same `faders[0]` and `faders[1]`. -/
theorem faders_handle_update_tracked_only (nan_int : Int) (a b : List json_t) (k : kntxt_t)
    (ha : a.length ≤ 16) (hb : b.length ≤ 16) (h0 : a[0]? = b[0]?) (h1 : a[1]? = b[1]?) :
    ∃ ka kb updated,
      faders_handle_update nan_int (some (.JSON_ARRAY a)) k = some (ka, updated) ∧
      faders_handle_update nan_int (some (.JSON_ARRAY b)) k = some (kb, updated) ∧
      ka.faders.get 0 = kb.faders.get 0 ∧ ka.faders.get 1 = kb.faders.get 1 ∧
      ka.faders.get 0 = entry_level nan_int a[0]? (k.faders.get 0) ∧
      ka.faders.get 1 = entry_level nan_int a[1]? (k.faders.get 1) ∧
      updated = (if ka.faders.get 0 ≠ k.faders.get 0 then 1 else 0) +
        (if ka.faders.get 1 ≠ k.faders.get 1 then 1 else 0) := by
  obtain ⟨ga, hga, sa⟩ := faders_handle_update_array nan_int a k ha
  obtain ⟨gb, hgb, sb⟩ := faders_handle_update_array nan_int b k hb
  have a0 := sa 0
  have a1 := sa 1
  have b0 := sb 0
  have b1 := sb 1
  simp only [Fin.val_zero, Fin.val_one] at a0 a1 b0 b1
  have e0 : ga.get 0 = gb.get 0 := by rw [a0, b0, h0]
  have e1 : ga.get 1 = gb.get 1 := by rw [a1, b1, h1]
  refine ⟨{ k with backlog := k.faders, faders := ga },
    { k with backlog := k.faders, faders := gb }, _, hga, ?_, e0, e1, a0, a1, rfl⟩
  rw [hgb]
  simp only [count_updated, e0, e1]

/-- C4 (failing input): on an array of 17 integers the store loop reaches `faders[16]`,
outside the 16 slots, and the call has no defined result, while the batch of its first two
entries alone is handled and returns 0. -/
theorem update_array_overflow (nan_int : Int) :
    faders_handle_update nan_int
        (some (.JSON_ARRAY (List.replicate 17 (.JSON_INTEGER 0)))) kntxt_zero = none ∧
      faders_handle_update nan_int
        (some (.JSON_ARRAY (List.replicate 2 (.JSON_INTEGER 0)))) kntxt_zero
        = some (kntxt_zero, 0) := by
  constructor
  · rfl
  · have e : int_of_json_int 0 = 0 := by decide
    simp only [faders_handle_update, List.replicate, store_loop, e, correct_0]
    decide

/-- C6: from a context with `sync_update` and `sync_busy` clear, for every reply whose
Updater call returns `changed > 0`, in the run E1, Updater, E2, E3 where every buffer write
of E2 succeeds: E1 writes no event, the Updater publishes the new levels, E2 writes the two
events carrying exactly these levels, and E3 writes no event. -/
theorem exactly_once_delivery (nan_int : Int) (w1 w2 w3 : Nat → Bool)
    (root : Option json_t) (k k1 : kntxt_t) (updated : Int)
    (hpending : k.sync_update = 0) (hbusy : k.sync_busy = 0)
    (h : main_handle_reply nan_int root (internal_jack_process w1 k).1 = some (k1, updated))
    (hpos : 0 < updated) (hw : ∀ i, i < 2 → w2 i = true) :
    (internal_jack_process w1 k).2 = [] ∧
      (internal_jack_process w1 k).1 = k ∧
      k1.sync_update = 1 ∧
      k1.sync_states.get 0 = k1.faders.get 0 ∧ k1.sync_states.get 1 = k1.faders.get 1 ∧
      (internal_jack_process w2 k1).2 =
        [[0xB0, 47, k1.faders.get 0], [0xB0, 50, k1.faders.get 1]] ∧
      (internal_jack_process w3 (internal_jack_process w2 k1).1).2 = [] := by
  obtain ⟨k0, hf, hcase⟩ := main_handle_reply_cases nan_int root _ k1 updated h
  rcases hcase with ⟨-, -, e⟩ | ⟨hn, -⟩
  · have hget := vector16_set_get_tracked k0.sync_states (k0.faders.get 0) (k0.faders.get 1)
    have hs0 : k1.sync_states.get 0 = k1.faders.get 0 := by rw [e]; exact hget.1
    have hs1 : k1.sync_states.get 1 = k1.faders.get 1 := by rw [e]; exact hget.2
    have hu : k1.sync_update = 1 := by rw [e]
    have hne : k1.sync_update ≠ 0 := by rw [hu]; decide
    refine ⟨?_, ?_, hu, hs0, hs1, ?_, ?_⟩
    · rw [process_idle w1 k hpending]
    · rw [process_idle w1 k hpending]
      cases k
      simp only [kntxt_t.mk.injEq, and_true, true_and]
      exact hbusy.symm
    · rw [process_pending w2 k1 hne, write_events_all_ok w2 _ _ hw, hs0, hs1]
    · rw [process_pending w2 k1 hne, process_idle w3 _ rfl]
  · exact absurd hpos hn

theorem exactly_once_delivery_witness :
    (internal_jack_process (fun _ => true) kntxt_zero).2 = [] ∧
      (internal_jack_process (fun _ => true) kntxt_zero).1 = kntxt_zero ∧
      kntxt_first.sync_update = 1 ∧
      kntxt_first.sync_states.get 0 = kntxt_first.faders.get 0 ∧
      kntxt_first.sync_states.get 1 = kntxt_first.faders.get 1 ∧
      (internal_jack_process (fun _ => true) kntxt_first).2 =
        [[0xB0, 47, kntxt_first.faders.get 0], [0xB0, 50, kntxt_first.faders.get 1]] ∧
      (internal_jack_process (fun _ => false)
          (internal_jack_process (fun _ => true) kntxt_first).1).2 = [] :=
  exactly_once_delivery 0 (fun _ => true) (fun _ => true) (fun _ => false)
    (some (.JSON_ARRAY [.JSON_INTEGER 0, .JSON_INTEGER 128])) kntxt_zero kntxt_first 1
    rfl rfl (by decide!) (by decide) (fun _ _ => rfl)

/-- C6 (counterexample): from the zeroed context the batch `[0, 128]` is published with
`changed = 1`, but when the buffer refuses the writes of E2 that call writes no event, E3
writes none either, and `sync_update` is clear again: the update is delivered zero times. -/
theorem exactly_once_fails_on_refused_write :
    kntxt_zero.sync_update = 0 ∧ kntxt_zero.sync_busy = 0 ∧
      (internal_jack_process (fun _ => true) kntxt_zero).2 = [] ∧
      main_handle_reply 0 (some (.JSON_ARRAY [.JSON_INTEGER 0, .JSON_INTEGER 128]))
          (internal_jack_process (fun _ => true) kntxt_zero).1 = some (kntxt_first, 1) ∧
      (internal_jack_process (fun _ => false) kntxt_first).2 = [] ∧
      (internal_jack_process (fun _ => false) kntxt_first).2
        ≠ [[0xB0, 47, kntxt_first.faders.get 0], [0xB0, 50, kntxt_first.faders.get 1]] ∧
      (internal_jack_process (fun _ => false) kntxt_first).1.sync_update = 0 ∧
      (internal_jack_process (fun _ => true)
          (internal_jack_process (fun _ => false) kntxt_first).1).2 = [] := by
  decide!

/-! ## the scenario and reachable contexts -/

theorem first_batch (nan_int : Int) :
    main_handle_reply nan_int (some (.JSON_ARRAY [.JSON_INTEGER 0, .JSON_INTEGER 128]))
      kntxt_zero = some (kntxt_first, 1) := by
  have e0 : int_of_json_int 0 = 0 := by decide
  have e1 : int_of_json_int 128 = 128 := by decide
  simp only [main_handle_reply, faders_handle_update, store_loop, e0, e1, correct_0,
    correct_128]
  decide

theorem second_batch (nan_int : Int) (w1 : Nat → Bool) :
    main_handle_reply nan_int (some (.JSON_ARRAY [.JSON_INTEGER 255, .JSON_INTEGER 0]))
      (internal_jack_process w1 kntxt_first).1 = some (kntxt_second, 2) := by
  have e0 : int_of_json_int 0 = 0 := by decide
  have e1 : int_of_json_int 255 = 255 := by decide
  rw [process_pending w1 kntxt_first (by decide)]
  simp only [main_handle_reply, faders_handle_update, store_loop, e0, e1, correct_0,
    correct_255]
  decide

/-- C8 (as amended): from the zeroed context, after the batch `[0, 128]` has been handled,
published and drained by one call of the emitter, the batch `[255, 0]` gives `changed = 2`
(slot 0 goes from 0 to 127 and slot 1 from 92 to 0) and stages `[127, 0]`, and the next call
of the emitter, its writes succeeding, writes the two events `[0xB0, 47, 127]` and
`[0xB0, 50, 0]`: one event per tracked channel. -/
theorem scenario_second_batch (nan_int : Int) (w1 w2 : Nat → Bool)
    (hw : ∀ i, i < 2 → w2 i = true) :
    ∃ k1 k2,
      main_handle_reply nan_int (some (.JSON_ARRAY [.JSON_INTEGER 0, .JSON_INTEGER 128]))
        kntxt_zero = some (k1, 1) ∧
      main_handle_reply nan_int (some (.JSON_ARRAY [.JSON_INTEGER 255, .JSON_INTEGER 0]))
        (internal_jack_process w1 k1).1 = some (k2, 2) ∧
      k2.sync_states.get 0 = 127 ∧ k2.sync_states.get 1 = 0 ∧
      k2.backlog.get 0 = 0 ∧ k2.backlog.get 1 = 92 ∧
      (internal_jack_process w2 k2).2 = [[0xB0, 47, 127], [0xB0, 50, 0]] := by
  refine ⟨kntxt_first, kntxt_second, first_batch nan_int, second_batch nan_int w1,
    by decide, by decide, by decide, by decide, ?_⟩
  rw [process_pending w2 kntxt_second (by decide), write_events_all_ok w2 _ _ hw]
  decide

theorem scenario_second_batch_witness :
    ∃ k1 k2,
      main_handle_reply 0 (some (.JSON_ARRAY [.JSON_INTEGER 0, .JSON_INTEGER 128]))
        kntxt_zero = some (k1, 1) ∧
      main_handle_reply 0 (some (.JSON_ARRAY [.JSON_INTEGER 255, .JSON_INTEGER 0]))
        (internal_jack_process (fun _ => true) k1).1 = some (k2, 2) ∧
      k2.sync_states.get 0 = 127 ∧ k2.sync_states.get 1 = 0 ∧
      k2.backlog.get 0 = 0 ∧ k2.backlog.get 1 = 92 ∧
      (internal_jack_process (fun _ => true) k2).2 = [[0xB0, 47, 127], [0xB0, 50, 0]] :=
  scenario_second_batch 0 (fun _ => true) (fun _ => true) (fun _ _ => rfl)

/-- C8 (counterexample): in the scenario the second batch `[255, 0]` does not give
`changed = 1` and the emitter does not write the single event `[0xB0, 47, 127]`: the call
returns 2 and two events are written. -/
theorem scenario_second_batch_not_single :
    main_handle_reply 0 (some (.JSON_ARRAY [.JSON_INTEGER 0, .JSON_INTEGER 128]))
        kntxt_zero = some (kntxt_first, 1) ∧
      main_handle_reply 0 (some (.JSON_ARRAY [.JSON_INTEGER 255, .JSON_INTEGER 0]))
        (internal_jack_process (fun _ => true) kntxt_first).1 = some (kntxt_second, 2) ∧
      (2 : Int) ≠ 1 ∧
      (internal_jack_process (fun _ => true) kntxt_second).2
        = [[0xB0, 47, 127], [0xB0, 50, 0]] ∧
      (internal_jack_process (fun _ => true) kntxt_second).2 ≠ [[0xB0, 47, 127]] := by
  decide!

theorem count_updated_zero (k : kntxt_t) (h0 : k.faders.get 0 = k.backlog.get 0)
    (h1 : k.faders.get 1 = k.backlog.get 1) : count_updated k = 0 := by
  simp [count_updated, h0, h1]

theorem count_updated_pos (k : kntxt_t) (h : 0 < count_updated k) :
    k.faders.get 0 ≠ k.backlog.get 0 ∨ k.faders.get 1 ≠ k.backlog.get 1 := by
  by_contra hc
  push_neg at hc
  rw [count_updated_zero k hc.1 hc.2] at h
  exact absurd h (by decide)

theorem count_updated_nonneg (k : kntxt_t) : 0 ≤ count_updated k := by
  unfold count_updated
  split_ifs <;> decide

theorem faders_handle_update_other (nan_int : Int) (root : json_t) (k : kntxt_t)
    (hroot : ∀ elems, root ≠ .JSON_ARRAY elems) :
    faders_handle_update nan_int (some root) k = some (k, count_updated k) := by
  cases root with
  | JSON_ARRAY elems => exact absurd rfl (hroot elems)
  | _ => rfl

/-- C9 (as amended): for every context, text that fails to parse (with the decoder flags
of line 100 this includes well-formed JSON whose top level is neither an array nor an
object) makes `faders_handle_update` return -1, an error and not 0; the context is left as
it was and the main loop publishes nothing.  A JSON object, the one top level other than an
array that is decoded, never fails and changes no field of the context in
`faders_handle_update`, which returns a count that is not negative; when the tracked levels
equal the snapshot in `backlog` the count is 0 and the main loop publishes nothing. -/
theorem undecodable_input (nan_int : Int) (k : kntxt_t) :
    (faders_handle_update nan_int none k = some (k, -1) ∧
      main_handle_reply nan_int none k = some (k, -1)) ∧
    (∃ updated, faders_handle_update nan_int (some .JSON_OBJECT) k = some (k, updated) ∧
      0 ≤ updated) ∧
    (k.faders.get 0 = k.backlog.get 0 → k.faders.get 1 = k.backlog.get 1 →
      faders_handle_update nan_int (some .JSON_OBJECT) k = some (k, 0) ∧
      main_handle_reply nan_int (some .JSON_OBJECT) k = some (k, 0)) := by
  have hf := faders_handle_update_other nan_int .JSON_OBJECT k
    (fun _ h => json_t.noConfusion h)
  refine ⟨⟨rfl, rfl⟩, ⟨_, hf, count_updated_nonneg k⟩, ?_⟩
  intro h0 h1
  rw [count_updated_zero k h0 h1] at hf
  exact ⟨hf, by simp [main_handle_reply, hf]⟩

theorem undecodable_input_witness :
    (faders_handle_update 0 none kntxt_first = some (kntxt_first, -1) ∧
      main_handle_reply 0 none kntxt_first = some (kntxt_first, -1)) ∧
    (∃ updated, faders_handle_update 0 (some .JSON_OBJECT) kntxt_zero
        = some (kntxt_zero, updated) ∧ 0 ≤ updated) ∧
    (faders_handle_update 0 (some .JSON_OBJECT) kntxt_zero = some (kntxt_zero, 0) ∧
      main_handle_reply 0 (some .JSON_OBJECT) kntxt_zero = some (kntxt_zero, 0)) :=
  ⟨(undecodable_input 0 kntxt_first).1, (undecodable_input 0 kntxt_zero).2.1,
   (undecodable_input 0 kntxt_zero).2.2 rfl rfl⟩

/-- C9 (counterexample): on text that fails to parse `faders_handle_update` returns -1, not
0; and after the batch `[0, 128]` has been published and drained, a JSON object, which is
decoded and is no array, makes it return 1 and the main loop set `sync_update` again. -/
theorem undecodable_input_not_zero :
    faders_handle_update 0 none kntxt_zero = some (kntxt_zero, -1) ∧
      (-1 : Int) ≠ 0 ∧
      main_handle_reply 0 (some (.JSON_ARRAY [.JSON_INTEGER 0, .JSON_INTEGER 128]))
        kntxt_zero = some (kntxt_first, 1) ∧
      (internal_jack_process (fun _ => true) kntxt_first).1.sync_update = 0 ∧
      faders_handle_update 0 (some .JSON_OBJECT)
          (internal_jack_process (fun _ => true) kntxt_first).1 =
        some ((internal_jack_process (fun _ => true) kntxt_first).1, 1) ∧
      main_handle_reply 0 (some .JSON_OBJECT)
          (internal_jack_process (fun _ => true) kntxt_first).1 = some (kntxt_first, 1) ∧
      kntxt_first.sync_update = 1 := by
  decide!

theorem reachable_not_busy (nan_int : Int) (k : kntxt_t) (h : Reachable nan_int k) :
    k.sync_busy = 0 := by
  induction h with
  | init => rfl
  | update root k k1 updated _ hstep ih =>
    obtain ⟨k0, hf, hcase⟩ := main_handle_reply_cases nan_int root k k1 updated hstep
    rcases hcase with ⟨-, hb, e⟩ | ⟨-, e⟩
    · rw [e]; exact hb
    · rw [e, (faders_handle_update_frame nan_int root k k0 updated hf).1]; exact ih
  | process write_ok k _ _ =>
    unfold internal_jack_process
    simp only []
    split <;> rfl

/-- C10 (as amended): in every context reachable from the zeroed one, an Updater call
that returns `changed > 0` completes its publish step, and right after it `sync_update` is
set, `sync_states` holds the new levels at the tracked indices and differs from `backlog`
in at least one tracked index. -/
theorem pending_after_publish (nan_int : Int) (k k0 : kntxt_t) (root : Option json_t)
    (updated : Int) (hk : Reachable nan_int k)
    (hf : faders_handle_update nan_int root k = some (k0, updated)) (hpos : 0 < updated) :
    ∃ k1, main_handle_reply nan_int root k = some (k1, updated) ∧
      k1.sync_update = 1 ∧
      (k1.sync_states.get 0 = k1.faders.get 0 ∧ k1.sync_states.get 1 = k1.faders.get 1) ∧
      (k1.sync_states.get 0 ≠ k1.backlog.get 0 ∨
        k1.sync_states.get 1 ≠ k1.backlog.get 1) := by
  obtain ⟨hb, -, -, hu⟩ := faders_handle_update_frame nan_int root k k0 updated hf
  have hb0 : k0.sync_busy = 0 := by rw [hb]; exact reachable_not_busy nan_int k hk
  have hcount : updated = count_updated k0 := by
    rcases hu with h | h
    · rw [h] at hpos; exact absurd hpos (by decide)
    · exact h
  have hdiff := count_updated_pos k0 (by rw [← hcount]; exact hpos)
  have hget := vector16_set_get_tracked k0.sync_states (k0.faders.get 0) (k0.faders.get 1)
  refine ⟨{ k0 with
            sync_states := (k0.sync_states.set 0 (k0.faders.get 0)).set 1 (k0.faders.get 1)
            sync_update := 1 }, ?_, rfl, hget, ?_⟩
  · unfold main_handle_reply
    rw [hf]
    simp only []
    rw [if_pos hpos, if_neg (not_not.mpr hb0)]
  · show ((k0.sync_states.set 0 (k0.faders.get 0)).set 1 (k0.faders.get 1)).get 0
        ≠ k0.backlog.get 0 ∨
      ((k0.sync_states.set 0 (k0.faders.get 0)).set 1 (k0.faders.get 1)).get 1
        ≠ k0.backlog.get 1
    rw [hget.1, hget.2]
    exact hdiff

theorem pending_after_publish_witness :
    ∃ k1, main_handle_reply 0 (some (.JSON_ARRAY [.JSON_INTEGER 0, .JSON_INTEGER 128]))
        kntxt_zero = some (k1, 1) ∧
      k1.sync_update = 1 ∧
      (k1.sync_states.get 0 = k1.faders.get 0 ∧ k1.sync_states.get 1 = k1.faders.get 1) ∧
      (k1.sync_states.get 0 ≠ k1.backlog.get 0 ∨ k1.sync_states.get 1 ≠ k1.backlog.get 1) :=
  pending_after_publish 0 kntxt_zero
    { kntxt_zero with faders := kntxt_zero.faders.set 1 92 }
    (some (.JSON_ARRAY [.JSON_INTEGER 0, .JSON_INTEGER 128])) 1 Reachable.init
    (by decide!) (by decide)

/-- C10 (counterexample): the batch `[0, 128]` handled twice from the zeroed context,
with no call of the emitter in between, reaches a context in which `sync_update` is set
while `sync_states` equals `backlog` at both tracked indices. -/
theorem pending_without_difference :
    Reachable 0 { kntxt_first with backlog := kntxt_first.faders } ∧
      ({ kntxt_first with backlog := kntxt_first.faders } : kntxt_t).sync_update = 1 ∧
      ({ kntxt_first with backlog := kntxt_first.faders } : kntxt_t).sync_states.get 0 =
        ({ kntxt_first with backlog := kntxt_first.faders } : kntxt_t).backlog.get 0 ∧
      ({ kntxt_first with backlog := kntxt_first.faders } : kntxt_t).sync_states.get 1 =
        ({ kntxt_first with backlog := kntxt_first.faders } : kntxt_t).backlog.get 1 := by
  refine ⟨?_, by decide, by decide, by decide⟩
  have h1 : Reachable 0 kntxt_first :=
    Reachable.update (some (.JSON_ARRAY [.JSON_INTEGER 0, .JSON_INTEGER 128]))
      kntxt_zero kntxt_first 1 Reachable.init (by decide!)
  exact Reachable.update (some (.JSON_ARRAY [.JSON_INTEGER 0, .JSON_INTEGER 128]))
    kntxt_first _ 0 h1 (by decide!)

end Faders
